import Mathlib

/-
Verification of the trust-region nonlinear least-squares driver
(src/multilarge_nlinear/trust.c) against its natural-language specification.

Embedding conventions:
* C `double` arithmetic is embedded as exact rational arithmetic (ℚ); the
  claims under study are about control flow, comparisons and field algebra,
  not about rounding.
* Euclidean norms appear in the source only through `gsl_blas_dnrm2` and
  the comparisons / ratios built from them.  Since `sqrt` is strictly
  monotone on nonnegatives, a comparison `‖a‖ ≥ ‖b‖` is embedded as the
  (equivalent) comparison of the squared norms `norm2 a ≥ norm2 b`, and the
  ratio `(‖f_trial‖/‖f‖)²` as `norm2 f_trial / norm2 f`.  Where a theorem
  statement speaks of the Euclidean norm itself it uses `Real.sqrt` of the
  (cast) squared norm.
* The pluggable strategies (TRS `preloop`/`step`/`preduction`, the user
  callbacks `eval_f`/`eval_df`, and the scaling policy's `update`) are
  opaque to the driver; they are embedded as an environment record `Env`
  of functions.  The attempt index ℕ models the evolution of the opaque
  `trs_state` across the attempts of one `trust_iterate` invocation, and
  the `LoopState` argument models the borrowed `trust_state` view the C
  code passes to each strategy call.
* `nielsen.c` is `#include`d by trust.c but is not under src/; the two
  controller operations used by `trust_iterate` are modelled from the
  spec (§4.3), see `nielsen_accept` / `nielsen_reject`.
* The C iteration loop counts consecutive rejected steps in `bad_steps`
  and returns `GSL_ENOPROG` as soon as `++bad_steps > 15`.  The embedding
  `trust_iterate_go` runs on `fuel = 16 - bad_steps`; the top-level call
  uses `fuel = 16` (i.e. `bad_steps = 0`), so the `fuel = 0` equation is
  never reached from `trust_iterate`.
-/

namespace TrustRegion

abbrev Vec := List ℚ
abbrev Mat := List (List ℚ)

/-- Squared Euclidean norm: `gsl_blas_dnrm2 v` is `Real.sqrt (norm2 v)`. -/
def norm2 (v : Vec) : ℚ := (v.map (fun a => a * a)).sum

/-- The tunable parameters of the driver that trust.c consults
(`params->factor_up`, `params->factor_down`, `params->avmax`) together
with the one variant tag it inspects
(`params->trs == gsl_multilarge_nlinear_trs_lmaccel`). -/
structure Params where
  factor_up : ℚ
  factor_down : ℚ
  avmax : ℚ
  isLmaccel : Bool
deriving DecidableEq

/-- The observable driver state during `trust_iterate`: the in/out vectors
`x`, `f`, `g`, matrix `JTJ` (a NULL pointer is `none`), and the fields of
`trust_state_t` the loop mutates (`diag`, `delta`, `mu`, `nu`, `avratio`). -/
structure LoopState where
  x : Vec
  f : Vec
  g : Vec
  JTJ : Option Mat
  diag : Vec
  delta : ℚ
  mu : ℚ
  nu : ℤ
  avratio : ℚ
deriving DecidableEq

/-- The pluggable operations `trust_iterate` invokes.  `step` returns the
proposed `dx` together with the `avratio` value the TRS wrote through the
`&avratio` pointer (`none` models a failure status); `preduction` returns
the predicted reduction (`none` models a failure status); `eval_f` and
`eval_df` are the user-callback adapters, whose failure statuses are
propagated verbatim by the driver. -/
structure Env where
  preloop : LoopState → Except Unit Unit
  step : ℕ → LoopState → Option (Vec × ℚ)
  eval_f : Vec → Except Unit Vec
  preduction : ℕ → LoopState → Vec → Option ℚ
  eval_df : Vec → Vec → Except Unit (Vec × Mat)
  scale_update : Mat → Vec → Vec

/-- Ghost observability: the per-attempt outcome of the iteration loop.
`fatalF` is a user `eval_f` callback failure (returned verbatim);
`fatalDf` is an `eval_df` failure after a step was accepted. -/
inductive Outcome where
  | accepted (rho : ℚ)
  | rejected (rho : ℚ)
  | fatalF
  | fatalDf (rho : ℚ)
deriving DecidableEq

/-- Return status of `trust_iterate`: `GSL_SUCCESS`, `GSL_ENOPROG`, or a
propagated error status from a strategy / user callback. -/
inductive Status where
  | success
  | enoprog
  | err
deriving DecidableEq

/-- Lines 351-354 of trust.c: the trust-region radius update. -/
def radius_update (p : Params) (rho delta : ℚ) : ℚ :=
  if rho > 3/4 then delta * p.factor_up
  else if rho < 1/4 then delta / p.factor_down
  else delta

/-- Modelled from the spec: `nielsen_reject` lives in nielsen.c, which is
not under src/.  Spec §4.3: reject(): μ ← μ·ν; ν ← 2·ν. -/
def nielsen_reject (mu : ℚ) (nu : ℤ) : ℚ × ℤ :=
  (mu * (nu : ℚ), 2 * nu)

/-- Modelled from the spec: `nielsen_accept` lives in nielsen.c, which is
not under src/.  Spec §4.3: accept(ρ): μ ← μ·max(1/3, 1−(2ρ−1)³); ν ← 2. -/
def nielsen_accept (rho mu : ℚ) : ℚ × ℤ :=
  (mu * max (1/3) (1 - (2*rho - 1)^3), 2)

/-- trust_trial_step: x_trial = x + dx (lines 418-430). -/
def trust_trial_step (x dx : Vec) : Vec :=
  List.zipWith (· + ·) x dx

/-- trust_calc_rho (lines 454-493).  The source compares the norms
`normf_trial >= normf`; the embedding compares the squared norms, which is
equivalent, and computes `actual/pred` with
`actual = 1 - (normf_trial/normf)² = 1 - norm2 f_trial / norm2 f`. -/
def trust_calc_rho (env : Env) (k : ℕ) (st : LoopState)
    (f_trial dx : Vec) : ℚ :=
  if norm2 f_trial ≥ norm2 st.f then -1
  else
    match env.preduction k st dx with
    | none => -1
    | some pred =>
        if pred > 0 then (1 - norm2 f_trial / norm2 st.f) / pred
        else -1

/-- trust_eval_step (lines 501-522): returns the pair
(status == GSL_SUCCESS, the ρ written through the out-parameter). -/
def trust_eval_step (env : Env) (p : Params) (k : ℕ) (st : LoopState)
    (f_trial dx : Vec) : Bool × ℚ :=
  let veto : Bool := p.isLmaccel && decide (st.avratio > p.avmax)
  let rho := trust_calc_rho env k st f_trial dx
  (!veto && decide (rho > 0), rho)

/-- The acceptance block of the loop body (lines 356-381): commit x and f,
recompute g and JᵀJ, update the scaling matrix if JᵀJ is present, and
apply the Nielsen accept update.  An `eval_df` failure returns its status
after x and f have already been committed (line 370-371). -/
def trust_accept (env : Env) (rho : ℚ) (x_trial f_trial : Vec)
    (st : LoopState) : Outcome × LoopState :=
  match env.eval_df x_trial f_trial with
  | Except.error _ => (Outcome.fatalDf rho, { st with x := x_trial, f := f_trial })
  | Except.ok (g1, M) =>
      (Outcome.accepted rho,
       { st with
         x := x_trial
         f := f_trial
         g := g1
         JTJ := st.JTJ.map (fun _ => M)
         diag := match st.JTJ with
                 | some _ => env.scale_update M st.diag
                 | none => st.diag
         mu := (nielsen_accept rho st.mu).1
         nu := (nielsen_accept rho st.mu).2 })

/-- The rejection block of the loop body (lines 383-386): apply the
Nielsen reject update.  (The bad-step accounting lives in the loop,
`trust_iterate_go`.) -/
def trust_reject (rho : ℚ) (st : LoopState) : Outcome × LoopState :=
  (Outcome.rejected rho,
   { st with
     mu := (nielsen_reject st.mu st.nu).1
     nu := (nielsen_reject st.mu st.nu).2 })

/-- One pass of the `while (!foundstep)` loop body of trust_iterate
(lines 302-392), for attempt `k`: propose a step, evaluate the trial
point, decide acceptance, update the radius (always, before the
accept/reject branch), then commit or reject. -/
def trust_body (env : Env) (p : Params) (k : ℕ) (st : LoopState) :
    Outcome × LoopState :=
  match env.step k st with
  | none =>
      -- iterative TRS failed to find a step: rho = -1 (lines 337-341)
      trust_reject (-1) { st with delta := radius_update p (-1) st.delta }
  | some (dx, av) =>
      match env.eval_f (trust_trial_step st.x dx) with
      | Except.error _ => (Outcome.fatalF, { st with avratio := av })
      | Except.ok f_trial =>
          let st1 : LoopState := { st with avratio := av }
          let es := trust_eval_step env p k st1 f_trial dx
          let st2 : LoopState := { st1 with delta := radius_update p es.2 st1.delta }
          if es.1 then trust_accept env es.2 (trust_trial_step st.x dx) f_trial st2
          else trust_reject es.2 st2

/-- The iteration loop of trust_iterate, with `fuel = 16 - bad_steps`;
the returned list is the ghost trace of per-attempt outcomes.  The
`fuel = 0` equation is unreachable from the top-level call. -/
def trust_iterate_go (env : Env) (p : Params) :
    ℕ → ℕ → LoopState → Status × LoopState × List Outcome
  | _, 0, st => (Status.enoprog, st, [])
  | k, fuel+1, st =>
      match trust_body env p k st with
      | (Outcome.accepted rho, st1) => (Status.success, st1, [Outcome.accepted rho])
      | (Outcome.fatalF, st1) => (Status.err, st1, [Outcome.fatalF])
      | (Outcome.fatalDf rho, st1) => (Status.err, st1, [Outcome.fatalDf rho])
      | (Outcome.rejected rho, st1) =>
          if fuel = 0 then (Status.enoprog, st1, [Outcome.rejected rho])
          else
            ((trust_iterate_go env p (k+1) fuel st1).1,
             (trust_iterate_go env p (k+1) fuel st1).2.1,
             Outcome.rejected rho :: (trust_iterate_go env p (k+1) fuel st1).2.2)

/-- trust_iterate (lines 273-396): preloop, then the acceptance loop
starting from `bad_steps = 0` (fuel 16). -/
def trust_iterate (env : Env) (p : Params) (st : LoopState) :
    Status × LoopState × List Outcome :=
  match env.preloop st with
  | Except.error _ => (Status.err, st, [])
  | Except.ok _ => trust_iterate_go env p 0 16 st

/-- Squared scaled norm: `trust_scaled_norm D a` (lines 525-542) is
`Real.sqrt (scaled_norm2 D a)`. -/
def scaled_norm2 (D a : Vec) : ℚ :=
  ((List.zipWith (· * ·) D a).map (fun u => u * u)).sum

/-- Environment of trust_init (lines 188-241).  `sqrt` abstracts the libm
square root used by `trust_scaled_norm`; `scale_init` is the scaling
policy's init; `nielsen_init` abstracts the controller init from
nielsen.c (not under src/); `trs_init` is the TRS init status. -/
structure InitEnv where
  eval_f : Vec → Except Unit Vec
  eval_df : Vec → Except Unit (Vec × Mat)
  scale_init : Mat → Vec
  sqrt : ℚ → ℚ
  nielsen_init : Option Mat → Vec → ℚ × ℤ
  trs_init : Except Unit Unit

/-- The state established by trust_init. -/
structure InitState where
  f : Vec
  g : Vec
  JTJ : Option Mat
  diag : Vec
  delta : ℚ
  mu : ℚ
  nu : ℤ
  avratio : ℚ
deriving DecidableEq

/-- trust_init (lines 188-241): evaluate f, then g and JᵀJ; initialise the
scaling vector (all ones when the JᵀJ pointer is NULL, line 213-214);
set Δ = 0.3·max(1, ‖D·x‖) (lines 217-218); initialise (μ, ν); run the TRS
init; finally set avratio = 0. -/
def trust_init (env : InitEnv) (x : Vec) (jtj : Bool) : Except Unit InitState :=
  match env.eval_f x with
  | Except.error e => Except.error e
  | Except.ok f =>
      match env.eval_df x with
      | Except.error e => Except.error e
      | Except.ok (g, M) =>
          let JTJ : Option Mat := if jtj then some M else none
          let diag : Vec :=
            match JTJ with
            | some M0 => env.scale_init M0
            | none => List.replicate x.length 1
          let delta : ℚ := 3/10 * max 1 (env.sqrt (scaled_norm2 diag x))
          let mn := env.nielsen_init JTJ diag
          match env.trs_init with
          | Except.error e => Except.error e
          | Except.ok _ =>
              Except.ok { f := f, g := g, JTJ := JTJ, diag := diag,
                          delta := delta, mu := mn.1, nu := mn.2, avratio := 0 }

/-! ### Concrete instances used by witnesses and counterexamples -/

/-- Default-style parameters: factor_up 2, factor_down 3, standard TRS. -/
def p0 : Params :=
  { factor_up := 2, factor_down := 3, avmax := 3/4, isLmaccel := false }

/-- lmaccel parameters with avmax = 1/2. -/
def pLm : Params :=
  { factor_up := 2, factor_down := 3, avmax := 1/2, isLmaccel := true }

/-- A one-parameter state with ‖f‖ = 1 and Δ = 1. -/
def st0 : LoopState :=
  { x := [0], f := [1], g := [0], JTJ := some [[1]], diag := [1],
    delta := 1, mu := 1, nu := 2, avratio := 0 }

/-- Environment whose every proposed step reproduces the current residual
norm, so every attempt is rejected with ρ = −1. -/
def env0 : Env :=
  { preloop := fun _ => Except.ok ()
    step := fun _ _ => some ([0], 0)
    eval_f := fun _ => Except.ok [1]
    preduction := fun _ _ _ => some 1
    eval_df := fun _ _ => Except.ok ([0], [[1]])
    scale_update := fun _ d => d }

/-- Environment whose first proposed step strictly reduces the residual:
the first attempt is accepted with ρ = 3/4. -/
def env1 : Env :=
  { env0 with
    step := fun _ _ => some ([1], 0)
    eval_f := fun _ => Except.ok [1/2] }

/-- Environment realising ρ = 9/10 on the proposed step, for the lmaccel
gate examples. -/
def envR : Env :=
  { env0 with eval_f := fun _ => Except.ok [3/10, 1/10] }

/-- Environment whose TRS preloop reports a failure. -/
def envPre : Env :=
  { env0 with preloop := fun _ => Except.error () }

/-- Environment whose TRS step operation always reports a failure. -/
def envStepFail : Env :=
  { env0 with step := fun _ _ => none }

/-- Environment whose TRS predicted-reduction operation always fails. -/
def envPredFail : Env :=
  { env1 with preduction := fun _ _ _ => none }

/-- State with avratio 7/10, above the pLm gate. -/
def stA : LoopState := { st0 with avratio := 7/10 }

/-- State with avratio 3/10, below the pLm gate. -/
def stB : LoopState := { st0 with avratio := 3/10 }

/-- State whose residual vector has Euclidean norm zero. -/
def st9 : LoopState := { st0 with f := [0] }

/-- Init environment for the NULL-JᵀJ initialisation witness. -/
def envInit : InitEnv :=
  { eval_f := fun _ => Except.ok [1]
    eval_df := fun _ => Except.ok ([0], [[1]])
    scale_init := fun _ => [5]
    sqrt := fun q => q
    nielsen_init := fun _ _ => (1, 2)
    trs_init := Except.ok () }

/-! ### Basic lemmas -/

lemma norm2_nonneg (v : Vec) : 0 ≤ norm2 v := by
  induction v with
  | nil => simp [norm2]
  | cons a t ih =>
      simp only [norm2, List.map_cons, List.sum_cons]
      have ha : 0 ≤ a * a := mul_self_nonneg a
      have ht : 0 ≤ norm2 t := ih
      simp only [norm2] at ht
      linarith

/-! ### Unfolding lemmas for the loop body -/

lemma trust_body_step_none {env : Env} {p : Params} {k : ℕ} {st : LoopState}
    (hs : env.step k st = none) :
    trust_body env p k st =
      (Outcome.rejected (-1),
       { st with delta := radius_update p (-1) st.delta,
                 mu := st.mu * (st.nu : ℚ), nu := 2 * st.nu }) := by
  unfold trust_body
  rw [hs]
  rfl

lemma trust_body_evalf_err {env : Env} {p : Params} {k : ℕ} {st : LoopState}
    {dx : Vec} {av : ℚ} {e : Unit}
    (hs : env.step k st = some (dx, av))
    (hf : env.eval_f (trust_trial_step st.x dx) = Except.error e) :
    trust_body env p k st = (Outcome.fatalF, { st with avratio := av }) := by
  unfold trust_body
  rw [hs]
  simp only [hf]

lemma trust_body_evalf_ok {env : Env} {p : Params} {k : ℕ} {st : LoopState}
    {dx ft : Vec} {av : ℚ}
    (hs : env.step k st = some (dx, av))
    (hf : env.eval_f (trust_trial_step st.x dx) = Except.ok ft) :
    trust_body env p k st =
      (if (trust_eval_step env p k { st with avratio := av } ft dx).1 then
         trust_accept env (trust_eval_step env p k { st with avratio := av } ft dx).2
           (trust_trial_step st.x dx) ft
           { st with avratio := av,
                     delta := radius_update p
                       (trust_eval_step env p k { st with avratio := av } ft dx).2 st.delta }
       else
         trust_reject (trust_eval_step env p k { st with avratio := av } ft dx).2
           { st with avratio := av,
                     delta := radius_update p
                       (trust_eval_step env p k { st with avratio := av } ft dx).2 st.delta }) := by
  unfold trust_body
  rw [hs]
  simp only [hf]

lemma trust_eval_step_true {env : Env} {p : Params} {k : ℕ} {st : LoopState}
    {ft dx : Vec}
    (h : (trust_eval_step env p k st ft dx).1 = true) :
    0 < (trust_eval_step env p k st ft dx).2 ∧
    (trust_eval_step env p k st ft dx).2 = trust_calc_rho env k st ft dx := by
  unfold trust_eval_step at h ⊢
  simp only [Bool.and_eq_true, decide_eq_true_eq] at h
  exact ⟨h.2, rfl⟩

lemma trust_calc_rho_pos {env : Env} {k : ℕ} {st : LoopState} {ft dx : Vec}
    (h : 0 < trust_calc_rho env k st ft dx) : norm2 ft < norm2 st.f := by
  unfold trust_calc_rho at h
  by_cases hg : norm2 ft ≥ norm2 st.f
  · rw [if_pos hg] at h
    norm_num at h
  · exact lt_of_not_ge hg

lemma trust_body_rejected_props {env : Env} {p : Params} {k : ℕ} {st st1 : LoopState}
    {rho : ℚ} (hb : trust_body env p k st = (Outcome.rejected rho, st1)) :
    st1.x = st.x ∧ st1.f = st.f ∧ st1.g = st.g ∧ st1.JTJ = st.JTJ ∧
    st1.diag = st.diag ∧ st1.delta = radius_update p rho st.delta := by
  cases hs : env.step k st with
  | none =>
      rw [trust_body_step_none hs] at hb
      injection hb with h1 h2
      injection h1 with h1
      subst h1
      rw [← h2]
      simp
  | some pr =>
      obtain ⟨dx, av⟩ := pr
      cases hf : env.eval_f (trust_trial_step st.x dx) with
      | error e =>
          rw [trust_body_evalf_err hs hf] at hb
          simp at hb
      | ok ft =>
          rw [trust_body_evalf_ok hs hf] at hb
          by_cases hok : (trust_eval_step env p k { st with avratio := av } ft dx).1 = true
          · rw [if_pos hok] at hb
            unfold trust_accept at hb
            cases hd : env.eval_df (trust_trial_step st.x dx) ft with
            | error e => rw [hd] at hb; simp at hb
            | ok gm =>
                obtain ⟨g1, M⟩ := gm
                rw [hd] at hb
                simp at hb
          · rw [if_neg hok] at hb
            unfold trust_reject at hb
            injection hb with h1 h2
            injection h1 with h1
            subst h1
            rw [← h2]
            simp

lemma trust_body_accepted_props {env : Env} {p : Params} {k : ℕ} {st st1 : LoopState}
    {rho : ℚ} (hb : trust_body env p k st = (Outcome.accepted rho, st1)) :
    0 < rho ∧ norm2 st1.f < norm2 st.f ∧ st1.delta = radius_update p rho st.delta := by
  cases hs : env.step k st with
  | none =>
      rw [trust_body_step_none hs] at hb
      simp at hb
  | some pr =>
      obtain ⟨dx, av⟩ := pr
      cases hf : env.eval_f (trust_trial_step st.x dx) with
      | error e =>
          rw [trust_body_evalf_err hs hf] at hb
          simp at hb
      | ok ft =>
          rw [trust_body_evalf_ok hs hf] at hb
          by_cases hok : (trust_eval_step env p k { st with avratio := av } ft dx).1 = true
          · rw [if_pos hok] at hb
            have hpos := trust_eval_step_true hok
            unfold trust_accept at hb
            cases hd : env.eval_df (trust_trial_step st.x dx) ft with
            | error e => rw [hd] at hb; simp at hb
            | ok gm =>
                obtain ⟨g1, M⟩ := gm
                rw [hd] at hb
                injection hb with h1 h2
                injection h1 with h1
                subst h1
                have hlt : norm2 ft < norm2 st.f := by
                  have := trust_calc_rho_pos (hpos.2 ▸ hpos.1)
                  simpa using this
                refine ⟨hpos.1, ?_, ?_⟩
                · rw [← h2]; simpa using hlt
                · rw [← h2]
          · rw [if_neg hok] at hb
            unfold trust_reject at hb
            simp at hb

/-! ### Unfolding lemmas for the iteration loop -/

lemma trust_go_zero (env : Env) (p : Params) (k : ℕ) (st : LoopState) :
    trust_iterate_go env p k 0 st = (Status.enoprog, st, []) := rfl

lemma trust_go_accepted {env : Env} {p : Params} {k : ℕ} {st st1 : LoopState}
    {rho : ℚ} (fuel : ℕ) (hb : trust_body env p k st = (Outcome.accepted rho, st1)) :
    trust_iterate_go env p k (fuel+1) st = (Status.success, st1, [Outcome.accepted rho]) := by
  unfold trust_iterate_go
  rw [hb]

lemma trust_go_fatalF {env : Env} {p : Params} {k : ℕ} {st st1 : LoopState}
    (fuel : ℕ) (hb : trust_body env p k st = (Outcome.fatalF, st1)) :
    trust_iterate_go env p k (fuel+1) st = (Status.err, st1, [Outcome.fatalF]) := by
  unfold trust_iterate_go
  rw [hb]

lemma trust_go_fatalDf {env : Env} {p : Params} {k : ℕ} {st st1 : LoopState}
    {rho : ℚ} (fuel : ℕ) (hb : trust_body env p k st = (Outcome.fatalDf rho, st1)) :
    trust_iterate_go env p k (fuel+1) st = (Status.err, st1, [Outcome.fatalDf rho]) := by
  unfold trust_iterate_go
  rw [hb]

lemma trust_go_rejected_last {env : Env} {p : Params} {k : ℕ} {st st1 : LoopState}
    {rho : ℚ} (hb : trust_body env p k st = (Outcome.rejected rho, st1)) :
    trust_iterate_go env p k 1 st = (Status.enoprog, st1, [Outcome.rejected rho]) := by
  conv_lhs => unfold trust_iterate_go
  rw [hb]
  simp

lemma trust_go_rejected_cont {env : Env} {p : Params} {k : ℕ} {st st1 : LoopState}
    {rho : ℚ} (fuel : ℕ) (hb : trust_body env p k st = (Outcome.rejected rho, st1)) :
    trust_iterate_go env p k (fuel+2) st =
      ((trust_iterate_go env p (k+1) (fuel+1) st1).1,
       (trust_iterate_go env p (k+1) (fuel+1) st1).2.1,
       Outcome.rejected rho :: (trust_iterate_go env p (k+1) (fuel+1) st1).2.2) := by
  conv_lhs => unfold trust_iterate_go
  rw [hb]
  simp

/-! ### Invariants of the iteration loop, by induction on the fuel -/

lemma trust_go_enoprog_frame {env : Env} {p : Params} :
    ∀ fuel k (st : LoopState), (trust_iterate_go env p k fuel st).1 = Status.enoprog →
      (trust_iterate_go env p k fuel st).2.1.x = st.x ∧
      (trust_iterate_go env p k fuel st).2.1.f = st.f ∧
      (trust_iterate_go env p k fuel st).2.1.g = st.g ∧
      (trust_iterate_go env p k fuel st).2.1.JTJ = st.JTJ := by
  intro fuel
  induction fuel with
  | zero => intro k st _; simp [trust_go_zero]
  | succ n ih =>
      intro k st h
      rcases hb : trust_body env p k st with ⟨o, st1⟩
      cases o with
      | accepted rho => rw [trust_go_accepted n hb] at h; simp at h
      | fatalF => rw [trust_go_fatalF n hb] at h; simp at h
      | fatalDf rho => rw [trust_go_fatalDf n hb] at h; simp at h
      | rejected rho =>
          obtain ⟨hx, hf, hg, hj, -, -⟩ := trust_body_rejected_props hb
          cases n with
          | zero =>
              rw [trust_go_rejected_last hb]
              simp [hx, hf, hg, hj]
          | succ m =>
              rw [trust_go_rejected_cont m hb] at h ⊢
              simp only [] at h ⊢
              obtain ⟨ihx, ihf, ihg, ihj⟩ := ih (k+1) st1 h
              exact ⟨ihx.trans hx, ihf.trans hf, ihg.trans hg, ihj.trans hj⟩

lemma trust_go_enoprog_iff {env : Env} {p : Params} :
    ∀ fuel k (st : LoopState),
      (trust_iterate_go env p k fuel st).1 = Status.enoprog ↔
        ((trust_iterate_go env p k fuel st).2.2.length = fuel ∧
         ∀ o ∈ (trust_iterate_go env p k fuel st).2.2, ∃ r, o = Outcome.rejected r) := by
  intro fuel
  induction fuel with
  | zero => intro k st; simp [trust_go_zero]
  | succ n ih =>
      intro k st
      rcases hb : trust_body env p k st with ⟨o, st1⟩
      cases o with
      | accepted rho => rw [trust_go_accepted n hb]; simp
      | fatalF => rw [trust_go_fatalF n hb]; simp
      | fatalDf rho => rw [trust_go_fatalDf n hb]; simp
      | rejected rho =>
          cases n with
          | zero => rw [trust_go_rejected_last hb]; simp
          | succ m =>
              rw [trust_go_rejected_cont m hb]
              simp only [List.length_cons, List.mem_cons]
              rw [ih (k+1) st1]
              constructor
              · rintro ⟨hl, hall⟩
                refine ⟨by omega, ?_⟩
                rintro o (rfl | ho)
                · exact ⟨rho, rfl⟩
                · exact hall o ho
              · rintro ⟨hl, hall⟩
                refine ⟨by omega, ?_⟩
                intro o ho
                exact hall o (Or.inr ho)

lemma trust_go_success_props {env : Env} {p : Params} :
    ∀ fuel k (st : LoopState), (trust_iterate_go env p k fuel st).1 = Status.success →
      norm2 (trust_iterate_go env p k fuel st).2.1.f < norm2 st.f ∧
      ∃ pre rho, (trust_iterate_go env p k fuel st).2.2 = pre ++ [Outcome.accepted rho] ∧
        0 < rho ∧ ∀ o ∈ pre, ∃ r, o = Outcome.rejected r := by
  intro fuel
  induction fuel with
  | zero => intro k st h; simp [trust_go_zero] at h
  | succ n ih =>
      intro k st h
      rcases hb : trust_body env p k st with ⟨o, st1⟩
      cases o with
      | accepted rho =>
          rw [trust_go_accepted n hb] at h ⊢
          obtain ⟨hrho, hlt, -⟩ := trust_body_accepted_props hb
          exact ⟨hlt, [], rho, by simp, hrho, by simp⟩
      | fatalF => rw [trust_go_fatalF n hb] at h; simp at h
      | fatalDf rho => rw [trust_go_fatalDf n hb] at h; simp at h
      | rejected rho =>
          obtain ⟨-, hf, -, -, -, -⟩ := trust_body_rejected_props hb
          cases n with
          | zero => rw [trust_go_rejected_last hb] at h; simp at h
          | succ m =>
              rw [trust_go_rejected_cont m hb] at h ⊢
              simp only [] at h ⊢
              obtain ⟨hlt, pre, rho1, htr, hrho1, hall⟩ := ih (k+1) st1 h
              refine ⟨by rw [← hf]; exact hlt, Outcome.rejected rho :: pre, rho1, ?_, hrho1, ?_⟩
              · simp [htr]
              · intro o ho
                rcases List.mem_cons.mp ho with rfl | ho2
                · exact ⟨rho, rfl⟩
                · exact hall o ho2

lemma trust_go_success_iff {env : Env} {p : Params} :
    ∀ fuel k (st : LoopState),
      (trust_iterate_go env p k fuel st).1 = Status.success ↔
        ∃ pre rho, (trust_iterate_go env p k fuel st).2.2 = pre ++ [Outcome.accepted rho] ∧
          ∀ o ∈ pre, ∃ r, o = Outcome.rejected r := by
  intro fuel
  induction fuel with
  | zero =>
      intro k st
      simp only [trust_go_zero]
      constructor
      · intro h; simp at h
      · rintro ⟨pre, rho, htr, -⟩
        exact absurd htr.symm (by simp)
  | succ n ih =>
      intro k st
      rcases hb : trust_body env p k st with ⟨o, st1⟩
      cases o with
      | accepted rho =>
          rw [trust_go_accepted n hb]
          constructor
          · intro _; exact ⟨[], rho, by simp, by simp⟩
          · intro _; rfl
      | fatalF =>
          rw [trust_go_fatalF n hb]
          constructor
          · intro h; simp at h
          · rintro ⟨pre, rho, htr, -⟩
            cases pre with
            | nil => simp at htr
            | cons a t => simp at htr
      | fatalDf rho0 =>
          rw [trust_go_fatalDf n hb]
          constructor
          · intro h; simp at h
          · rintro ⟨pre, rho, htr, -⟩
            cases pre with
            | nil => simp at htr
            | cons a t => simp at htr
      | rejected rho0 =>
          cases n with
          | zero =>
              rw [trust_go_rejected_last hb]
              constructor
              · intro h; simp at h
              · rintro ⟨pre, rho, htr, -⟩
                cases pre with
                | nil => simp at htr
                | cons a t => simp at htr
          | succ m =>
              rw [trust_go_rejected_cont m hb]
              simp only []
              rw [ih (k+1) st1]
              constructor
              · rintro ⟨pre, rho, htr, hall⟩
                refine ⟨Outcome.rejected rho0 :: pre, rho, by simp [htr], ?_⟩
                intro o ho
                rcases List.mem_cons.mp ho with rfl | ho2
                · exact ⟨rho0, rfl⟩
                · exact hall o ho2
              · rintro ⟨pre, rho, htr, hall⟩
                cases pre with
                | nil => simp at htr
                | cons a t =>
                    simp only [List.cons_append, List.cons.injEq] at htr
                    refine ⟨t, rho, htr.2, ?_⟩
                    intro o ho
                    exact hall o (List.mem_cons_of_mem a ho)

lemma radius_update_neg_one (p : Params) (d : ℚ) :
    radius_update p (-1) d = d / p.factor_down := by
  unfold radius_update
  norm_num

lemma trust_go_allneg_delta {env : Env} {p : Params} :
    ∀ fuel k (st : LoopState), (trust_iterate_go env p k fuel st).1 = Status.enoprog →
      (∀ o ∈ (trust_iterate_go env p k fuel st).2.2, o = Outcome.rejected (-1)) →
      (trust_iterate_go env p k fuel st).2.1.delta =
        st.delta / p.factor_down ^ (trust_iterate_go env p k fuel st).2.2.length := by
  intro fuel
  induction fuel with
  | zero => intro k st _ _; simp [trust_go_zero]
  | succ n ih =>
      intro k st h hall
      rcases hb : trust_body env p k st with ⟨o, st1⟩
      cases o with
      | accepted rho => rw [trust_go_accepted n hb] at h; simp at h
      | fatalF => rw [trust_go_fatalF n hb] at h; simp at h
      | fatalDf rho => rw [trust_go_fatalDf n hb] at h; simp at h
      | rejected rho =>
          obtain ⟨-, -, -, -, -, hd⟩ := trust_body_rejected_props hb
          cases n with
          | zero =>
              rw [trust_go_rejected_last hb] at hall ⊢
              have hrho : rho = -1 := by
                have := hall (Outcome.rejected rho) (by simp)
                simpa using this
              subst hrho
              simp only [List.length_cons, List.length_nil, pow_one, zero_add]
              rw [hd, radius_update_neg_one]
          | succ m =>
              rw [trust_go_rejected_cont m hb] at h hall ⊢
              simp only [List.mem_cons, List.length_cons] at h hall ⊢
              have hrho : rho = -1 := by
                have := hall (Outcome.rejected rho) (Or.inl rfl)
                simpa using this
              subst hrho
              have hrec := ih (k+1) st1 h (fun o ho => hall o (Or.inr ho))
              rw [hrec, hd, radius_update_neg_one, div_div, ← pow_succ']

/-! ### Evaluation of the concrete environments -/

lemma env0_calc_rho (k : ℕ) (st : LoopState) (hf1 : st.f = [1]) (dx : Vec) :
    trust_calc_rho env0 k st [1] dx = -1 := by
  unfold trust_calc_rho
  rw [if_pos (by rw [hf1])]

lemma env0_evalstep (k : ℕ) (st : LoopState) (hf1 : st.f = [1]) :
    trust_eval_step env0 p0 k st [1] [0] = (false, -1) := by
  unfold trust_eval_step
  have hd : decide ((-1 : ℚ) > 0) = false := decide_eq_false (by norm_num)
  simp [env0_calc_rho k st hf1, hd, p0]

lemma env0_body (k : ℕ) (st : LoopState) (hf1 : st.f = [1]) :
    trust_body env0 p0 k st =
      (Outcome.rejected (-1),
       { st with avratio := 0, delta := st.delta / 3,
                 mu := st.mu * (st.nu : ℚ), nu := 2 * st.nu }) := by
  have hs : env0.step k st = some ([0], 0) := rfl
  have hf : env0.eval_f (trust_trial_step st.x [0]) = Except.ok [1] := rfl
  rw [trust_body_evalf_ok hs hf]
  have hf1a : ({ st with avratio := (0 : ℚ) } : LoopState).f = [1] := by simpa using hf1
  rw [env0_evalstep k _ hf1a]
  norm_num [trust_reject, nielsen_reject, radius_update, p0]

lemma env0_go : ∀ fuel k (st : LoopState), st.f = [1] →
    (trust_iterate_go env0 p0 k fuel st).1 = Status.enoprog ∧
    (trust_iterate_go env0 p0 k fuel st).2.2 =
      List.replicate fuel (Outcome.rejected (-1)) := by
  intro fuel
  induction fuel with
  | zero => intro k st _; simp [trust_go_zero]
  | succ n ih =>
      intro k st hf1
      have hb := env0_body k st hf1
      have hf2 := ((trust_body_rejected_props hb).2.1).trans hf1
      cases n with
      | zero => rw [trust_go_rejected_last hb]; simp
      | succ m =>
          rw [trust_go_rejected_cont m hb]
          obtain ⟨h1, h2⟩ := ih (k+1) _ hf2
          simp only []
          exact ⟨h1, by rw [h2]; simp [List.replicate_succ]⟩

lemma env0_iterate_eq : trust_iterate env0 p0 st0 = trust_iterate_go env0 p0 0 16 st0 := rfl

lemma env0_status : (trust_iterate env0 p0 st0).1 = Status.enoprog := by
  rw [env0_iterate_eq]
  exact (env0_go 16 0 st0 rfl).1

lemma env0_trace :
    (trust_iterate env0 p0 st0).2.2 = List.replicate 16 (Outcome.rejected (-1)) := by
  rw [env0_iterate_eq]
  exact (env0_go 16 0 st0 rfl).2

lemma env0_x : (trust_iterate env0 p0 st0).2.1.x = st0.x := by
  rw [env0_iterate_eq]
  exact (trust_go_enoprog_frame 16 0 st0 (env0_go 16 0 st0 rfl).1).1

lemma env0_delta : (trust_iterate env0 p0 st0).2.1.delta = 1 / 3 ^ 16 := by
  rw [env0_iterate_eq]
  have hall : ∀ o ∈ (trust_iterate_go env0 p0 0 16 st0).2.2, o = Outcome.rejected (-1) := by
    rw [(env0_go 16 0 st0 rfl).2]
    intro o ho
    exact List.eq_of_mem_replicate ho
  have hd := trust_go_allneg_delta 16 0 st0 (env0_go 16 0 st0 rfl).1 hall
  rw [(env0_go 16 0 st0 rfl).2] at hd
  simpa [st0, p0] using hd

lemma env1_calc_rho : trust_calc_rho env1 0 { st0 with avratio := 0 } [1/2] [1] = 3/4 := by
  unfold trust_calc_rho
  rw [if_neg (by norm_num [st0, norm2])]
  norm_num [env1, env0, st0, norm2]

lemma env1_evalstep :
    trust_eval_step env1 p0 0 { st0 with avratio := 0 } [1/2] [1] = (true, 3/4) := by
  unfold trust_eval_step
  have hd : decide ((3 : ℚ)/4 > 0) = true := decide_eq_true (by norm_num)
  simp only [env1_calc_rho]
  simp [hd, p0]

lemma env1_outcome : (trust_body env1 p0 0 st0).1 = Outcome.accepted (3/4) := by
  have hs : env1.step 0 st0 = some ([1], 0) := rfl
  have hf : env1.eval_f (trust_trial_step st0.x [1]) = Except.ok [1/2] := rfl
  rw [trust_body_evalf_ok hs hf]
  rw [env1_evalstep]
  simp [trust_accept, env1, env0]

lemma env1_run : (trust_iterate env1 p0 st0).1 = Status.success := by
  have hiter : trust_iterate env1 p0 st0 = trust_iterate_go env1 p0 0 16 st0 := rfl
  rw [hiter]
  rcases hb : trust_body env1 p0 0 st0 with ⟨o, st1⟩
  have ho : o = Outcome.accepted (3/4) := by
    have h := env1_outcome
    rw [hb] at h
    exact h
  subst ho
  rw [trust_go_accepted 15 hb]

lemma envR_calc_rho (st : LoopState) (hf1 : st.f = [1]) :
    trust_calc_rho envR 0 st [3/10, 1/10] [0] = 9/10 := by
  unfold trust_calc_rho
  rw [if_neg (by norm_num [hf1, norm2])]
  norm_num [envR, env0, hf1, norm2]

lemma envR_evalA : trust_eval_step envR pLm 0 stA [3/10, 1/10] [0] = (false, 9/10) := by
  unfold trust_eval_step
  have hv : decide (stA.avratio > pLm.avmax) = true :=
    decide_eq_true (by norm_num [stA, st0, pLm])
  have hd : decide ((9 : ℚ)/10 > 0) = true := decide_eq_true (by norm_num)
  simp only [envR_calc_rho stA rfl]
  simp [hv, hd, pLm]
  norm_num [stA, st0]

lemma envR_evalB : trust_eval_step envR pLm 0 stB [3/10, 1/10] [0] = (true, 9/10) := by
  unfold trust_eval_step
  have hv : decide (stB.avratio > pLm.avmax) = false :=
    decide_eq_false (by norm_num [stB, st0, pLm])
  have hd : decide ((9 : ℚ)/10 > 0) = true := decide_eq_true (by norm_num)
  simp only [envR_calc_rho stB rfl]
  simp [hv, hd, pLm]
  norm_num [stB, st0]

lemma zipWith_one_mul : ∀ v : Vec, List.zipWith (· * ·) (List.replicate v.length 1) v = v := by
  intro v
  induction v with
  | nil => rfl
  | cons a t ih =>
      simp only [List.length_cons, List.replicate_succ, List.zipWith_cons_cons, one_mul, ih]

lemma scaled_norm2_ones (v : Vec) :
    scaled_norm2 (List.replicate v.length 1) v = norm2 v := by
  unfold scaled_norm2 norm2
  rw [zipWith_one_mul]

lemma envInit_run :
    trust_init envInit [2] false =
      Except.ok { f := [1], g := [0], JTJ := none, diag := [1],
                  delta := 6/5, mu := 1, nu := 2, avratio := 0 } := by
  unfold trust_init
  norm_num [envInit, scaled_norm2, List.replicate]

/-! ### Additional small helpers used by claim theorems -/

lemma trust_calc_rho_pred_none {env : Env} {k : ℕ} {st : LoopState} {ft dx : Vec}
    (hp : env.preduction k st dx = none) :
    trust_calc_rho env k st ft dx = -1 := by
  unfold trust_calc_rho
  by_cases hg : norm2 ft ≥ norm2 st.f
  · rw [if_pos hg]
  · rw [if_neg hg, hp]

lemma trust_eval_step_neg {env : Env} {p : Params} {k : ℕ} {st : LoopState} {ft dx : Vec}
    (h : trust_calc_rho env k st ft dx = -1) :
    trust_eval_step env p k st ft dx = (false, -1) := by
  unfold trust_eval_step
  have hd : decide ((-1 : ℚ) > 0) = false := decide_eq_false (by norm_num)
  simp [h, hd]

/-! ### Claim theorems -/

/-- C1: in every driver iteration, once ρ is computed the trust radius is
updated as the pure function `radius_update` of ρ and the current Δ alone
(Δ·factor_up if ρ > 3/4, Δ/factor_down if ρ < 1/4, else unchanged); the
same update applies whether the step is then accepted or rejected, and
accepting a step causes no further change to Δ. -/
theorem trust_radius_update_pure (env : Env) (p : Params) (k : ℕ) (st : LoopState) :
    (∀ rho st1, trust_body env p k st = (Outcome.rejected rho, st1) →
        st1.delta = radius_update p rho st.delta) ∧
    (∀ rho st1, trust_body env p k st = (Outcome.accepted rho, st1) →
        st1.delta = radius_update p rho st.delta) ∧
    (∀ rho d, radius_update p rho d =
        if rho > 3/4 then d * p.factor_up
        else if rho < 1/4 then d / p.factor_down
        else d) := by
  refine ⟨?_, ?_, fun rho d => rfl⟩
  · intro rho st1 hb
    exact (trust_body_rejected_props hb).2.2.2.2.2
  · intro rho st1 hb
    exact (trust_body_accepted_props hb).2.2

theorem trust_radius_update_pure_witness :
    (trust_body env1 p0 0 st0).2.delta = radius_update p0 (3/4) st0.delta := by
  have hb : trust_body env1 p0 0 st0 =
      (Outcome.accepted (3/4), (trust_body env1 p0 0 st0).2) := by
    exact Prod.ext env1_outcome rfl
  exact (trust_radius_update_pure env1 p0 0 st0).2.1 (3/4) _ hb

/-- C2: whenever ‖f_trial‖ ≥ ‖f‖ (Euclidean norms; equality included),
trust_calc_rho returns ρ = −1 without consulting the TRS preduction
operation (the result is the same for every preduction function), and
trust_eval_step consequently rejects the step. -/
theorem trust_no_decrease_rejected (env : Env) (k : ℕ) (st : LoopState)
    (f_trial dx : Vec)
    (h : Real.sqrt ((norm2 st.f : ℝ)) ≤ Real.sqrt ((norm2 f_trial : ℝ))) :
    trust_calc_rho env k st f_trial dx = -1 ∧
    (∀ pr, trust_calc_rho { env with preduction := pr } k st f_trial dx = -1) ∧
    (∀ p, (trust_eval_step env p k st f_trial dx).1 = false) := by
  have hq : norm2 st.f ≤ norm2 f_trial := by
    have hx : (0 : ℝ) ≤ ((norm2 f_trial : ℚ) : ℝ) := by exact_mod_cast norm2_nonneg f_trial
    have := (Real.sqrt_le_sqrt_iff hx).mp h
    exact_mod_cast this
  have h1 : trust_calc_rho env k st f_trial dx = -1 := by
    unfold trust_calc_rho
    rw [if_pos hq]
  have h2 : ∀ pr, trust_calc_rho { env with preduction := pr } k st f_trial dx = -1 := by
    intro pr
    unfold trust_calc_rho
    rw [if_pos hq]
  refine ⟨h1, h2, ?_⟩
  intro p
  rw [trust_eval_step_neg h1]

theorem trust_no_decrease_rejected_witness :
    trust_calc_rho env0 0 st0 [1] [0] = -1 ∧
    (∀ pr, trust_calc_rho { env0 with preduction := pr } 0 st0 [1] [0] = -1) ∧
    (∀ p, (trust_eval_step env0 p 0 st0 [1] [0]).1 = false) :=
  trust_no_decrease_rejected env0 0 st0 [1] [0] (le_refl _)

/-- C3: an invocation of trust_iterate returns GSL_ENOPROG exactly when
its 16 attempts are all rejected (the bad-step counter, reset at entry,
then exceeds 15), and returns GSL_SUCCESS exactly when an attempt is
accepted after only rejected attempts. -/
theorem trust_noprogress_iff (env : Env) (p : Params) (st : LoopState)
    (hpre : env.preloop st = Except.ok ()) :
    ((trust_iterate env p st).1 = Status.enoprog ↔
      ((trust_iterate env p st).2.2.length = 16 ∧
       ∀ o ∈ (trust_iterate env p st).2.2, ∃ r, o = Outcome.rejected r)) ∧
    ((trust_iterate env p st).1 = Status.success ↔
      ∃ pre rho, (trust_iterate env p st).2.2 = pre ++ [Outcome.accepted rho] ∧
        ∀ o ∈ pre, ∃ r, o = Outcome.rejected r) := by
  have hit : trust_iterate env p st = trust_iterate_go env p 0 16 st := by
    unfold trust_iterate
    rw [hpre]
  rw [hit]
  exact ⟨trust_go_enoprog_iff 16 0 st, trust_go_success_iff 16 0 st⟩

theorem trust_noprogress_iff_witness :
    (trust_iterate env0 p0 st0).2.2.length = 16 ∧
    ∀ o ∈ (trust_iterate env0 p0 st0).2.2, ∃ r, o = Outcome.rejected r :=
  ((trust_noprogress_iff env0 p0 st0 rfl).1).mp env0_status

/-- C4 counterexample: in the all-rejections run the driver does return
NoProgress with θ bit-for-bit equal to θ₀, but Δ ends at Δ₀/3¹⁶, not
Δ₀/3¹⁵: the radius is divided on all 16 rejected attempts, not 15. -/
theorem trust_fifteen_divisions_counterexample :
    (trust_iterate env0 p0 st0).1 = Status.enoprog ∧
    (trust_iterate env0 p0 st0).2.1.x = st0.x ∧
    (∀ o ∈ (trust_iterate env0 p0 st0).2.2, o = Outcome.rejected (-1)) ∧
    (trust_iterate env0 p0 st0).2.1.delta ≠ st0.delta / p0.factor_down ^ 15 := by
  refine ⟨env0_status, env0_x, ?_, ?_⟩
  · rw [env0_trace]
    intro o ho
    exact List.eq_of_mem_replicate ho
  · rw [env0_delta]
    norm_num [st0, p0]

/-- C4 (amended): in a run whose every attempt is rejected with ρ = −1 and
which returns NoProgress, θ is bit-for-bit θ₀ and f is unchanged, and Δ has
been divided by factor_down exactly 16 times (once per rejected attempt,
including the 16th on which NoProgress is returned). -/
theorem trust_sixteen_divisions (env : Env) (p : Params) (st : LoopState)
    (h1 : (trust_iterate env p st).1 = Status.enoprog)
    (h2 : ∀ o ∈ (trust_iterate env p st).2.2, o = Outcome.rejected (-1)) :
    (trust_iterate env p st).2.1.x = st.x ∧
    (trust_iterate env p st).2.1.f = st.f ∧
    (trust_iterate env p st).2.1.delta = st.delta / p.factor_down ^ 16 := by
  cases hp : env.preloop st with
  | error e =>
      unfold trust_iterate at h1
      rw [hp] at h1
      simp at h1
  | ok u =>
      have hit : trust_iterate env p st = trust_iterate_go env p 0 16 st := by
        unfold trust_iterate
        rw [hp]
      rw [hit] at h1 h2 ⊢
      have hfr := trust_go_enoprog_frame 16 0 st h1
      have hd := trust_go_allneg_delta 16 0 st h1 h2
      have hlen := (trust_go_enoprog_iff 16 0 st).mp h1
      rw [hlen.1] at hd
      exact ⟨hfr.1, hfr.2.1, hd⟩

theorem trust_sixteen_divisions_witness :
    (trust_iterate env0 p0 st0).2.1.x = st0.x ∧
    (trust_iterate env0 p0 st0).2.1.f = st0.f ∧
    (trust_iterate env0 p0 st0).2.1.delta = st0.delta / p0.factor_down ^ 16 :=
  trust_sixteen_divisions env0 p0 st0 env0_status
    (by rw [env0_trace]; intro o ho; exact List.eq_of_mem_replicate ho)

/-- C5 counterexample: a failing TRS preloop operation is propagated as a
fatal error status before any step is attempted — no rejected step with
ρ = −1 is recorded and the iteration loop never runs — so not every
TRS-reported failure is converted into a non-fatal rejection. -/
theorem trust_trs_failure_counterexample :
    trust_iterate envPre p0 st0 = (Status.err, st0, []) := rfl

/-- C5 (amended): every failure reported by the TRS step operation, and
every failure of the predicted-reduction operation (through which linear
solver failures surface), is converted into a rejected step with ρ = −1
and is not fatal — the loop continues unless the bad-step counter exceeds
15, in which case NoProgress is returned; a failure of the TRS preloop
operation, by contrast, is returned immediately. -/
theorem trust_trs_failure_rejection :
    (∀ (env : Env) (p : Params) (k : ℕ) (st : LoopState),
        env.step k st = none → (trust_body env p k st).1 = Outcome.rejected (-1)) ∧
    (∀ (env : Env) (p : Params) (k : ℕ) (st : LoopState) (dx : Vec) (av : ℚ) (ft : Vec),
        env.step k st = some (dx, av) →
        env.eval_f (trust_trial_step st.x dx) = Except.ok ft →
        env.preduction k { st with avratio := av } dx = none →
        (trust_body env p k st).1 = Outcome.rejected (-1)) ∧
    (∀ (env : Env) (p : Params) (k : ℕ) (st st1 : LoopState) (rho : ℚ) (fuel : ℕ),
        trust_body env p k st = (Outcome.rejected rho, st1) →
        (trust_iterate_go env p k (fuel+2) st).1 =
          (trust_iterate_go env p (k+1) (fuel+1) st1).1) ∧
    (∀ (env : Env) (p : Params) (k : ℕ) (st st1 : LoopState) (rho : ℚ),
        trust_body env p k st = (Outcome.rejected rho, st1) →
        (trust_iterate_go env p k 1 st).1 = Status.enoprog) ∧
    (∀ (env : Env) (p : Params) (st : LoopState) (e : Unit),
        env.preloop st = Except.error e →
        trust_iterate env p st = (Status.err, st, [])) := by
  refine ⟨?_, ?_, ?_, ?_, ?_⟩
  · intro env p k st hs
    rw [trust_body_step_none hs]
  · intro env p k st dx av ft hs hf hp
    rw [trust_body_evalf_ok hs hf, trust_eval_step_neg (trust_calc_rho_pred_none hp)]
    simp [trust_reject]
  · intro env p k st st1 rho fuel hb
    rw [trust_go_rejected_cont fuel hb]
  · intro env p k st st1 rho hb
    rw [trust_go_rejected_last hb]
  · intro env p st e hp
    unfold trust_iterate
    rw [hp]

theorem trust_trs_failure_rejection_witness :
    (trust_body envStepFail p0 0 st0).1 = Outcome.rejected (-1) ∧
    (trust_body envPredFail p0 0 st0).1 = Outcome.rejected (-1) ∧
    (trust_iterate_go envStepFail p0 0 1 st0).1 = Status.enoprog ∧
    trust_iterate envPre p0 st0 = (Status.err, st0, []) :=
  ⟨trust_trs_failure_rejection.1 envStepFail p0 0 st0 rfl,
   trust_trs_failure_rejection.2.1 envPredFail p0 0 st0 [1] 0 [1/2] rfl rfl rfl,
   trust_trs_failure_rejection.2.2.2.1 envStepFail p0 0 st0 _ (-1)
     (trust_body_step_none rfl),
   trust_trs_failure_rejection.2.2.2.2 envPre p0 st0 () rfl⟩

/-- C6: with the lmaccel variant, a step whose stored avratio exceeds avmax
is rejected by trust_eval_step regardless of ρ; with avratio not exceeding
avmax (lmaccel) or with any other variant, acceptance is exactly ρ > 0, so
avratio has no other effect on the decision. -/
theorem trust_lmaccel_gate (env : Env) (p : Params) (k : ℕ) (st : LoopState)
    (ft dx : Vec) :
    (p.isLmaccel = true → p.avmax < st.avratio →
        (trust_eval_step env p k st ft dx).1 = false) ∧
    (p.isLmaccel = true → st.avratio ≤ p.avmax →
        ((trust_eval_step env p k st ft dx).1 = true ↔
          0 < (trust_eval_step env p k st ft dx).2)) ∧
    (p.isLmaccel = false →
        ((trust_eval_step env p k st ft dx).1 = true ↔
          0 < (trust_eval_step env p k st ft dx).2)) := by
  refine ⟨?_, ?_, ?_⟩
  · intro hLm hav
    have hv : decide (st.avratio > p.avmax) = true := decide_eq_true hav
    unfold trust_eval_step
    simp [hLm, hv]
  · intro hLm hav
    have hv : decide (st.avratio > p.avmax) = false := decide_eq_false (not_lt.mpr hav)
    unfold trust_eval_step
    simp [hLm, hv]
  · intro hLm
    unfold trust_eval_step
    simp [hLm]

theorem trust_lmaccel_gate_witness :
    (trust_eval_step envR pLm 0 stA [3/10, 1/10] [0]).1 = false ∧
    (trust_eval_step envR pLm 0 stB [3/10, 1/10] [0]).1 = true := by
  constructor
  · exact (trust_lmaccel_gate envR pLm 0 stA [3/10, 1/10] [0]).1 rfl
      (by norm_num [stA, st0, pLm])
  · exact ((trust_lmaccel_gate envR pLm 0 stB [3/10, 1/10] [0]).2.1 rfl
      (by norm_num [stB, st0, pLm])).mpr (by rw [envR_evalB]; norm_num)

/-- C7: whenever trust_iterate returns GSL_SUCCESS the Euclidean norm of
the residual strictly decreases (stated both on the squared norms and via
Real.sqrt), and the run's final attempt was an accepted step with ρ > 0
after only rejected attempts. -/
theorem trust_success_strict_decrease (env : Env) (p : Params) (st : LoopState)
    (h : (trust_iterate env p st).1 = Status.success) :
    norm2 (trust_iterate env p st).2.1.f < norm2 st.f ∧
    Real.sqrt ((norm2 (trust_iterate env p st).2.1.f : ℝ)) <
      Real.sqrt ((norm2 st.f : ℝ)) ∧
    ∃ pre rho, (trust_iterate env p st).2.2 = pre ++ [Outcome.accepted rho] ∧
      0 < rho ∧ ∀ o ∈ pre, ∃ r, o = Outcome.rejected r := by
  cases hp : env.preloop st with
  | error e =>
      unfold trust_iterate at h
      rw [hp] at h
      simp at h
  | ok u =>
      have hit : trust_iterate env p st = trust_iterate_go env p 0 16 st := by
        unfold trust_iterate
        rw [hp]
      rw [hit] at h ⊢
      obtain ⟨hlt, rest⟩ := trust_go_success_props 16 0 st h
      refine ⟨hlt, ?_, rest⟩
      exact Real.sqrt_lt_sqrt (by exact_mod_cast norm2_nonneg _) (by exact_mod_cast hlt)

theorem trust_success_strict_decrease_witness :
    norm2 (trust_iterate env1 p0 st0).2.1.f < norm2 st0.f ∧
    Real.sqrt ((norm2 (trust_iterate env1 p0 st0).2.1.f : ℝ)) <
      Real.sqrt ((norm2 st0.f : ℝ)) ∧
    ∃ pre rho, (trust_iterate env1 p0 st0).2.2 = pre ++ [Outcome.accepted rho] ∧
      0 < rho ∧ ∀ o ∈ pre, ∃ r, o = Outcome.rejected r :=
  trust_success_strict_decrease env1 p0 st0 env1_run

/-- C8: the observable state θ (x), f, g and JᵀJ is mutated only on step
acceptance: a rejected loop-body pass leaves all four exactly as they
were, and a NoProgress return leaves all four at the values the invocation
started from (only Δ, μ, ν, avratio may have changed). -/
theorem trust_frame_on_rejection (env : Env) (p : Params) :
    (∀ (k : ℕ) (st st1 : LoopState) (rho : ℚ),
        trust_body env p k st = (Outcome.rejected rho, st1) →
        st1.x = st.x ∧ st1.f = st.f ∧ st1.g = st.g ∧ st1.JTJ = st.JTJ) ∧
    (∀ st : LoopState, (trust_iterate env p st).1 = Status.enoprog →
        (trust_iterate env p st).2.1.x = st.x ∧
        (trust_iterate env p st).2.1.f = st.f ∧
        (trust_iterate env p st).2.1.g = st.g ∧
        (trust_iterate env p st).2.1.JTJ = st.JTJ) := by
  constructor
  · intro k st st1 rho hb
    obtain ⟨hx, hf, hg, hj, -, -⟩ := trust_body_rejected_props hb
    exact ⟨hx, hf, hg, hj⟩
  · intro st h
    cases hp : env.preloop st with
    | error e =>
        unfold trust_iterate at h
        rw [hp] at h
        simp at h
    | ok u =>
        have hit : trust_iterate env p st = trust_iterate_go env p 0 16 st := by
          unfold trust_iterate
          rw [hp]
        rw [hit] at h ⊢
        exact trust_go_enoprog_frame 16 0 st h

theorem trust_frame_on_rejection_witness :
    ((trust_body env0 p0 0 st0).2.x = st0.x ∧ (trust_body env0 p0 0 st0).2.f = st0.f ∧
     (trust_body env0 p0 0 st0).2.g = st0.g ∧
     (trust_body env0 p0 0 st0).2.JTJ = st0.JTJ) ∧
    ((trust_iterate env0 p0 st0).2.1.x = st0.x ∧
     (trust_iterate env0 p0 st0).2.1.f = st0.f ∧
     (trust_iterate env0 p0 st0).2.1.g = st0.g ∧
     (trust_iterate env0 p0 st0).2.1.JTJ = st0.JTJ) := by
  have hb : trust_body env0 p0 0 st0 =
      (Outcome.rejected (-1), (trust_body env0 p0 0 st0).2) := by
    rw [env0_body 0 st0 rfl]
  exact ⟨(trust_frame_on_rejection env0 p0).1 0 st0 _ (-1) hb,
         (trust_frame_on_rejection env0 p0).2 st0 env0_status⟩

/-- C9: from a state whose residual has Euclidean norm exactly 0, every
ratio computation returns ρ = −1 (as ‖f_trial‖ ≥ 0 = ‖f‖), so
trust_iterate can never return GSL_SUCCESS from that state: it ends in
NoProgress or a propagated error status. -/
theorem trust_zero_residual_no_success (env : Env) (p : Params) (st : LoopState)
    (h : norm2 st.f = 0) :
    (∀ (k : ℕ) (f_trial dx : Vec), trust_calc_rho env k st f_trial dx = -1) ∧
    (trust_iterate env p st).1 ≠ Status.success ∧
    ((trust_iterate env p st).1 = Status.enoprog ∨
     (trust_iterate env p st).1 = Status.err) := by
  have hcalc : ∀ (k : ℕ) (ft dx : Vec), trust_calc_rho env k st ft dx = -1 := by
    intro k ft dx
    unfold trust_calc_rho
    rw [if_pos (by rw [h]; exact norm2_nonneg ft)]
  have hns : (trust_iterate env p st).1 ≠ Status.success := by
    intro hs
    cases hp : env.preloop st with
    | error e =>
        unfold trust_iterate at hs
        rw [hp] at hs
        simp at hs
    | ok u =>
        have hit : trust_iterate env p st = trust_iterate_go env p 0 16 st := by
          unfold trust_iterate
          rw [hp]
        rw [hit] at hs
        have hlt := (trust_go_success_props 16 0 st hs).1
        have hnn := norm2_nonneg (trust_iterate_go env p 0 16 st).2.1.f
        rw [h] at hlt
        linarith
  refine ⟨hcalc, hns, ?_⟩
  cases hst : (trust_iterate env p st).1 with
  | success => exact absurd hst hns
  | enoprog => exact Or.inl rfl
  | err => exact Or.inr rfl

theorem trust_zero_residual_no_success_witness :
    (∀ (k : ℕ) (f_trial dx : Vec), trust_calc_rho env0 k st9 f_trial dx = -1) ∧
    (trust_iterate env0 p0 st9).1 ≠ Status.success ∧
    ((trust_iterate env0 p0 st9).1 = Status.enoprog ∨
     (trust_iterate env0 p0 st9).1 = Status.err) :=
  trust_zero_residual_no_success env0 p0 st9 (by norm_num [st9, st0, norm2])

/-- C10: when trust_init is run with a NULL JᵀJ, the scaling policy's init
is never consulted (the result is the same for every scale_init function),
the scale vector D is set to all ones, and the initial radius is
Δ₀ = 0.3·max(1, ‖θ₀‖), the scaled norm collapsing to the plain norm of θ₀. -/
theorem trust_init_no_jtj (env : InitEnv) (x : Vec) :
    (∀ si, trust_init { env with scale_init := si } x false = trust_init env x false) ∧
    (∀ s, trust_init env x false = Except.ok s →
        s.diag = List.replicate x.length 1 ∧
        s.delta = 3/10 * max 1 (env.sqrt (norm2 x)) ∧
        s.avratio = 0) := by
  constructor
  · intro si
    rfl
  · intro s hs
    unfold trust_init at hs
    cases hf : env.eval_f x with
    | error e => rw [hf] at hs; simp at hs
    | ok f =>
        rw [hf] at hs
        cases hdf : env.eval_df x with
        | error e => rw [hdf] at hs; simp at hs
        | ok gm =>
            obtain ⟨g, M⟩ := gm
            rw [hdf] at hs
            cases ht : env.trs_init with
            | error e => rw [ht] at hs; simp at hs
            | ok u =>
                rw [ht] at hs
                simp only [Bool.false_eq_true, if_false] at hs
                obtain rfl := (Except.ok.inj hs).symm
                refine ⟨rfl, ?_, rfl⟩
                simp [scaled_norm2_ones]

theorem trust_init_no_jtj_witness :
    ({ f := [1], g := [0], JTJ := none, diag := [1], delta := 6/5, mu := 1, nu := 2,
       avratio := 0 } : InitState).diag = List.replicate ([2] : Vec).length 1 ∧
    ({ f := [1], g := [0], JTJ := none, diag := [1], delta := 6/5, mu := 1, nu := 2,
       avratio := 0 } : InitState).delta = 3/10 * max 1 (envInit.sqrt (norm2 [2])) ∧
    ({ f := [1], g := [0], JTJ := none, diag := [1], delta := 6/5, mu := 1, nu := 2,
       avratio := 0 } : InitState).avratio = 0 :=
  (trust_init_no_jtj envInit [2]).2 _ envInit_run

end TrustRegion
